import Mathlib

/-!
# vps-template: the log fan-out handler, the request handlers and the lifecycle of `main`

A shallow embedding of `main.go`.

* `slog.Handler` is an interface; a destination is a value of an arbitrary type `H`
  together with a record `HandlerOps` of its four methods.  `Handle` is the only
  method with an effect, which is threaded through an abstract world `W`.
* `multiHandler.Handle` additionally returns the list of destination calls it made
  (a ghost trace), so that "which destination was invoked" can be stated.
* `http.ResponseWriter` is a small state record; `os.Getenv` reads an association list.
* `main` is a function of the outcomes of the effects it performs, in program order.
-/

namespace VpsTemplate

/-! ## slog data model -/

/-- Severity of a log record: `slog.Level`, an `int`. -/
abbrev Level := Int

/-- Constant `slog.LevelDebug`. -/
def LevelDebug : Level := -4

/-- Constant `slog.LevelInfo`. -/
def LevelInfo : Level := 0

/-- Constant `slog.LevelWarn`. -/
def LevelWarn : Level := 4

/-- Constant `slog.LevelError`. -/
def LevelError : Level := 8

/-- Key/value pair attached to a record: `slog.Attr`. -/
structure Attr where
  Key : String
  Value : String
deriving DecidableEq, Repr

/-- Log record: `slog.Record` (time, message, level, attributes). -/
structure Record where
  Time : String
  Message : String
  Level : Level
  Attrs : List Attr
deriving DecidableEq, Repr

/-- Method table of the interface `slog.Handler` for destinations of type `H`.
`Enabled` is a pure test, `Handle` acts on the world `W` and may return an error,
`WithAttrs` and `WithGroup` return derived destinations.  `Nil` is the zero value of
the interface type, the content of a freshly made slice. -/
structure HandlerOps (H Ctx Err W : Type) where
  Enabled : H → Ctx → Level → Bool
  Handle : H → Ctx → Record → W → W × Option Err
  WithAttrs : H → List Attr → H
  WithGroup : H → String → H
  Nil : H

/-- Type `multiHandler`: "allows writing to multiple handlers simultaneously". -/
structure multiHandler (H : Type) where
  handlers : List H

/-- One call `handler.Handle(ctx, record)` made by `multiHandler.Handle`: the position of
the destination in `h.handlers`, the destination, the record passed and the error returned. -/
structure Call (H Err : Type) where
  index : Nat
  handler : H
  record : Record
  result : Option Err

/-- Outcome of `multiHandler.Handle`: the world after the call, the destination calls made
(in the order they were made) and the returned error (`none` is `nil`). -/
structure HandleResult (H Err W : Type) where
  world : W
  calls : List (Call H Err)
  err : Option Err

/-- State of the loops of `WithAttrs` and `WithGroup`: the receiver `h` and the local
slice `newHandlers`. -/
structure DeriveState (H : Type) where
  h : multiHandler H
  newHandlers : List H

/-- What `WithAttrs` and `WithGroup` leave behind: the receiver after the call and the
returned handler. -/
structure Derived (H : Type) where
  receiver : multiHandler H
  result : multiHandler H

section Fanout

variable {H Ctx Err W : Type}

/-- The `for _, handler := range h.handlers` loop of `multiHandler.Enabled`. -/
def enabledLoop (ops : HandlerOps H Ctx Err W) (ctx : Ctx) (level : Level) : List H → Bool
  | [] => false
  | handler :: rest =>
    if ops.Enabled handler ctx level then true else enabledLoop ops ctx level rest

/-- Method `multiHandler.Enabled`. -/
def multiHandler.Enabled (ops : HandlerOps H Ctx Err W) (h : multiHandler H) (ctx : Ctx)
    (level : Level) : Bool :=
  enabledLoop ops ctx level h.handlers

/-- The `for _, handler := range h.handlers` loop of `multiHandler.Handle`, from the
destination at position `i` on, in world `w`. -/
def handleLoop (ops : HandlerOps H Ctx Err W) (ctx : Ctx) (record : Record) :
    List H → Nat → W → HandleResult H Err W
  | [], _, w => { world := w, calls := [], err := none }
  | handler :: rest, i, w =>
    if ops.Enabled handler ctx record.Level then
      match ops.Handle handler ctx record w with
      | (w1, some err) =>
        { world := w1, calls := [{ index := i, handler := handler, record := record,
                                   result := some err }], err := some err }
      | (w1, none) =>
        let r := handleLoop ops ctx record rest (i + 1) w1
        { world := r.world,
          calls := { index := i, handler := handler, record := record, result := none }
                     :: r.calls,
          err := r.err }
    else handleLoop ops ctx record rest (i + 1) w

/-- Method `multiHandler.Handle`. -/
def multiHandler.Handle (ops : HandlerOps H Ctx Err W) (h : multiHandler H) (ctx : Ctx)
    (record : Record) (w : W) : HandleResult H Err W :=
  handleLoop ops ctx record h.handlers 0 w

/-- The world after `Handle(ctx, record)` has been called on each destination of `ds` in
turn, starting in world `w`. -/
def deliver (ops : HandlerOps H Ctx Err W) (ctx : Ctx) (record : Record) (ds : List H)
    (w : W) : W :=
  ds.foldl (fun v d => (ops.Handle d ctx record v).1) w

/-- The destinations of `hs` whose own `Enabled` accepts the level of `record`, in list
order. -/
def enabledFor (ops : HandlerOps H Ctx Err W) (ctx : Ctx) (record : Record)
    (hs : List H) : List H :=
  hs.filter (fun d => ops.Enabled d ctx record.Level)

/-- Builtin `make([]slog.Handler, n)`: a slice of `n` zero values. -/
def makeHandlers (ops : HandlerOps H Ctx Err W) (n : Nat) : List H :=
  List.replicate n ops.Nil

/-- The `for i, handler := range h.handlers` loop of `multiHandler.WithAttrs`:
`newHandlers[i] = handler.WithAttrs(attrs)`. -/
def withAttrsLoop (ops : HandlerOps H Ctx Err W) (attrs : List Attr) :
    List H → Nat → DeriveState H → DeriveState H
  | [], _, s => s
  | handler :: rest, i, s =>
    withAttrsLoop ops attrs rest (i + 1)
      { s with newHandlers := s.newHandlers.set i (ops.WithAttrs handler attrs) }

/-- Method `multiHandler.WithAttrs`. -/
def multiHandler.WithAttrs (ops : HandlerOps H Ctx Err W) (h : multiHandler H)
    (attrs : List Attr) : Derived H :=
  let s := withAttrsLoop ops attrs h.handlers 0
    { h := h, newHandlers := makeHandlers ops h.handlers.length }
  { receiver := s.h, result := { handlers := s.newHandlers } }

/-- The `for i, handler := range h.handlers` loop of `multiHandler.WithGroup`:
`newHandlers[i] = handler.WithGroup(name)`. -/
def withGroupLoop (ops : HandlerOps H Ctx Err W) (name : String) :
    List H → Nat → DeriveState H → DeriveState H
  | [], _, s => s
  | handler :: rest, i, s =>
    withGroupLoop ops name rest (i + 1)
      { s with newHandlers := s.newHandlers.set i (ops.WithGroup handler name) }

/-- Method `multiHandler.WithGroup`. -/
def multiHandler.WithGroup (ops : HandlerOps H Ctx Err W) (h : multiHandler H)
    (name : String) : Derived H :=
  let s := withGroupLoop ops name h.handlers 0
    { h := h, newHandlers := makeHandlers ops h.handlers.length }
  { receiver := s.h, result := { handlers := s.newHandlers } }

end Fanout

/-! ## A concrete destination, for examples -/

/-- A destination with a minimum level that appends what it handles to a list of output
lines, or fails with a fixed error; `attrs` and `groups` are what `WithAttrs` and
`WithGroup` have baked in. -/
structure lineHandler where
  name : String
  minLevel : Level
  failure : Option String
  attrs : List Attr
  groups : List String
deriving DecidableEq, Repr

/-- Methods of `lineHandler`; the world is the list of (destination name, record) lines
written so far. -/
def lineOps : HandlerOps lineHandler Unit String (List (String × Record)) where
  Enabled := fun d _ level => decide (d.minLevel ≤ level)
  Handle := fun d _ record w =>
    match d.failure with
    | some e => (w, some e)
    | none => (w ++ [(d.name, { record with Attrs := d.attrs ++ record.Attrs })], none)
  WithAttrs := fun d attrs => { d with attrs := d.attrs ++ attrs }
  WithGroup := fun d name => { d with groups := d.groups ++ [name] }
  Nil := { name := "", minLevel := 0, failure := none, attrs := [], groups := [] }

/-- A destination at level Info whose `Handle` fails. -/
def brokenFile : lineHandler :=
  { name := "file", minLevel := LevelInfo, failure := some "disk full", attrs := [],
    groups := [] }

/-- A destination at level Info whose `Handle` succeeds. -/
def console : lineHandler :=
  { name := "stdout", minLevel := LevelInfo, failure := none, attrs := [], groups := [] }

/-- A destination at level Error whose `Handle` succeeds. -/
def errorsOnly : lineHandler :=
  { name := "errors", minLevel := LevelError, failure := none, attrs := [], groups := [] }

/-- A second destination at level Info whose `Handle` succeeds. -/
def syslog : lineHandler :=
  { name := "syslog", minLevel := LevelInfo, failure := none, attrs := [], groups := [] }

/-- An Info record. -/
def sampleRecord : Record :=
  { Time := "2024-01-01T00:00:00Z", Message := "hello", Level := LevelInfo, Attrs := [] }


/-! ## Process environment, HTTP requests and responses -/

/-- Process environment as a list of (name, value) pairs. -/
abbrev Environ := List (String × String)

/-- Function `os.Getenv`: the value of the variable, the empty string when it is unset. -/
def Getenv (env : Environ) (key : String) : String :=
  match env.lookup key with
  | some v => v
  | none => ""

/-- The fields of `*http.Request` that the handlers read. -/
structure Request where
  Method : String
  Path : String
  RemoteAddr : String
  UserAgent : String
deriving DecidableEq, Repr

/-- State of an `http.ResponseWriter`: the header map, the status line once it has been
written (with the header as it was sent), and the body written so far. -/
structure ResponseWriter where
  header : List (String × String)
  status : Option Nat
  sentHeader : List (String × String)
  body : String
deriving DecidableEq, Repr

/-- The response writer the server hands to a handler. -/
def ResponseWriter.fresh : ResponseWriter :=
  { header := [], status := none, sentHeader := [], body := "" }

/-- Call `w.Header().Set(key, value)`: replaces the values of `key`. -/
def ResponseWriter.SetHeader (w : ResponseWriter) (key value : String) : ResponseWriter :=
  { w with header := w.header.filter (fun kv => kv.1 != key) ++ [(key, value)] }

/-- Call `w.WriteHeader(code)`: sends the status line and the header; a second call has no
effect on the response. -/
def ResponseWriter.WriteHeader (w : ResponseWriter) (code : Nat) : ResponseWriter :=
  match w.status with
  | some _ => w
  | none => { w with status := some code, sentHeader := w.header }

/-- Call `w.Write(data)`: writes status 200 first when no status was written yet. -/
def ResponseWriter.Write (w : ResponseWriter) (data : String) : ResponseWriter :=
  let w1 := w.WriteHeader 200
  { w1 with body := w1.body ++ data }

/-- Constant `http.StatusOK`. -/
def StatusOK : Nat := 200

/-- One call to the package-level `logger`: level, message and key/value arguments. -/
structure LogCall where
  level : Level
  msg : String
  args : List Attr
deriving DecidableEq, Repr

/-- What a request handler does: the response writer after the call, the calls to
`logger`, and the names of the trace spans it started and ended. -/
structure HandlerRun where
  w : ResponseWriter
  logs : List LogCall
  spans : List String
deriving DecidableEq, Repr

/-- The spans a handler opens: one with the handler's name when `tracer != nil`. -/
def startSpan (tracer : Bool) (name : String) : List String :=
  if tracer then [name] else []

/-- The raw string literal of `handleRoot` up to the version slot, one piece a line
(the last line is cut before `Version: `). -/
def htmlHead : String :=
  "<!DOCTYPE html>\n" ++
  "<html lang=\"en\">\n" ++
  "<head>\n" ++
  "    <meta charset=\"UTF-8\">\n" ++
  "    <meta name=\"viewport\" content=\"width=device-width, initial-scale=1.0\">\n" ++
  "    <title>Go VPS Template</title>\n" ++
  "    <style>\n" ++
  "        body \x7b\n" ++
  "            font-family: Arial, sans-serif;\n" ++
  "            display: flex;\n" ++
  "            justify-content: center;\n" ++
  "            align-items: center;\n" ++
  "            height: 100vh;\n" ++
  "            margin: 0;\n" ++
  "            background: linear-gradient(135deg, #667eea 0%, #764ba2 100%);\n" ++
  "            color: white;\n" ++
  "        \x7d\n" ++
  "        .container \x7b\n" ++
  "            text-align: center;\n" ++
  "            padding: 2rem;\n" ++
  "            background: rgba(255, 255, 255, 0.1);\n" ++
  "            border-radius: 10px;\n" ++
  "            backdrop-filter: blur(10px);\n" ++
  "        \x7d\n" ++
  "        h1 \x7b\n" ++
  "            margin-bottom: 1rem;\n" ++
  "            font-size: 2.5rem;\n" ++
  "        \x7d\n" ++
  "        p \x7b\n" ++
  "            font-size: 1.2rem;\n" ++
  "            margin: 0.5rem 0;\n" ++
  "        \x7d\n" ++
  "        .version \x7b\n" ++
  "            font-size: 0.9rem;\n" ++
  "            opacity: 0.8;\n" ++
  "            margin-top: 1rem;\n" ++
  "        \x7d\n" ++
  "        .links \x7b\n" ++
  "            margin-top: 2rem;\n" ++
  "        \x7d\n" ++
  "        .links a \x7b\n" ++
  "            color: #fff;\n" ++
  "            text-decoration: none;\n" ++
  "            margin: 0 1rem;\n" ++
  "            padding: 0.5rem 1rem;\n" ++
  "            border: 1px solid rgba(255,255,255,0.3);\n" ++
  "            border-radius: 5px;\n" ++
  "            transition: background-color 0.3s;\n" ++
  "        \x7d\n" ++
  "        .links a:hover \x7b\n" ++
  "            background-color: rgba(255,255,255,0.2);\n" ++
  "        \x7d\n" ++
  "    </style>\n" ++
  "</head>\n" ++
  "<body>\n" ++
  "    <div class=\"container\">\n" ++
  "        <h1>ðŸš€ Go VPS Template</h1>\n" ++
  "        <p>Welcome to your Go application!</p>\n" ++
  "        <p>This app demonstrates structured logging, tracing, and database connectivity.</p>\n" ++
  "        <div class=\"version\">" ++
  "Version: "

/-- The raw string literal of `handleRoot` after the version slot. -/
def htmlTail : String :=
  "</div>\n" ++
  "        <div class=\"links\">\n" ++
  "            <a href=\"/health\">Health Check</a>\n" ++
  "        </div>\n" ++
  "    </div>\n" ++
  "</body>\n" ++
  "</html>"

/-- Function `handleRoot`; `tracer` says whether the package-level tracer is set. -/
def handleRoot (tracer : Bool) (env : Environ) (r : Request) (w : ResponseWriter) :
    HandlerRun :=
  let spans := startSpan tracer "handleRoot"
  let logs : List LogCall :=
    [{ level := LevelInfo, msg := "Root endpoint accessed",
       args := [⟨"method", r.Method⟩, ⟨"path", r.Path⟩, ⟨"remote_addr", r.RemoteAddr⟩,
                ⟨"user_agent", r.UserAgent⟩] }]
  let html := htmlHead ++ Getenv env "IMAGE_TAG" ++ htmlTail
  let w1 := w.SetHeader "Content-Type" "text/html"
  let w2 := w1.WriteHeader StatusOK
  let w3 := w2.Write html
  { w := w3, logs := logs, spans := spans }

/-- Indexing a `map[string]string`: the zero value for a missing key. -/
def mapIndex (m : List (String × String)) (key : String) : String :=
  match m.lookup key with
  | some v => v
  | none => ""

/-- Function `fmt.Sprintf` for formats whose only verbs are `%s` and `%%`, on string
operands: each `%s` is replaced by the next operand, written as it is. -/
def Sprintf : List Char → List String → List Char
  | [], _ => []
  | '%' :: 's' :: rest, [] => "%!s(MISSING)".toList ++ Sprintf rest []
  | '%' :: 's' :: rest, a :: args => a.toList ++ Sprintf rest args
  | '%' :: '%' :: rest, args => '%' :: Sprintf rest args
  | c :: rest, args => c :: Sprintf rest args

/-- The format string of `handleHealth`. -/
def healthFormat : String :=
  "\x7b\"status\":\"%s\",\"version\":\"%s\",\"time\":\"%s\"\x7d"

/-- Function `handleHealth`; `now` is `time.Now().UTC().Format(time.RFC3339)`. -/
def handleHealth (tracer : Bool) (env : Environ) (now : String) (_r : Request)
    (w : ResponseWriter) : HandlerRun :=
  let spans := startSpan tracer "handleHealth"
  let logs : List LogCall := [{ level := LevelInfo, msg := "Health check accessed", args := [] }]
  let health : List (String × String) :=
    [("status", "healthy"), ("version", Getenv env "IMAGE_TAG"), ("time", now)]
  let w1 := w.SetHeader "Content-Type" "application/json"
  let w2 := w1.Write (String.mk (Sprintf healthFormat.toList
    [mapIndex health "status", mapIndex health "version", mapIndex health "time"]))
  { w := w2, logs := logs, spans := spans }

/-! ## JSON texts (RFC 8259) that are objects with string members -/

/-- Skips JSON whitespace. -/
def skipWs : List Char → List Char
  | ' ' :: rest => skipWs rest
  | '\t' :: rest => skipWs rest
  | '\n' :: rest => skipWs rest
  | '\r' :: rest => skipWs rest
  | cs => cs

/-- Value of a hexadecimal digit. -/
def hexDigit (c : Char) : Option Nat :=
  if '0' ≤ c ∧ c ≤ '9' then some (c.toNat - '0'.toNat)
  else if 'a' ≤ c ∧ c ≤ 'f' then some (c.toNat - 'a'.toNat + 10)
  else if 'A' ≤ c ∧ c ≤ 'F' then some (c.toNat - 'A'.toNat + 10)
  else none

/-- The code unit of a `\uXXXX` escape. -/
def hex4 (a b c d : Char) : Option Char :=
  match hexDigit a, hexDigit b, hexDigit c, hexDigit d with
  | some x, some y, some z, some t => some (Char.ofNat (((x * 16 + y) * 16 + z) * 16 + t))
  | _, _, _, _ => none

/-- Reads a JSON string after its opening quote: the decoded characters and the input
after the closing quote; `none` when the string is not closed, holds a raw control
character or an escape that JSON does not have. -/
def readString : List Char → Option (List Char × List Char)
  | [] => none
  | '"' :: rest => some ([], rest)
  | '\\' :: 'u' :: a :: b :: c :: d :: rest =>
    match hex4 a b c d, readString rest with
    | some ch, some (s, out) => some (ch :: s, out)
    | _, _ => none
  | '\\' :: e :: rest =>
    let dec : Option Char :=
      if e = '"' then some '"' else if e = '\\' then some '\\' else if e = '/' then some '/'
      else if e = 'b' then some (Char.ofNat 8) else if e = 'f' then some (Char.ofNat 12)
      else if e = 'n' then some '\n' else if e = 'r' then some '\r'
      else if e = 't' then some '\t' else none
    match dec, readString rest with
    | some ch, some (s, out) => some (ch :: s, out)
    | _, _ => none
  | '\\' :: [] => none
  | c :: rest =>
    if c.toNat < 32 then none
    else match readString rest with
      | some (s, out) => some (c :: s, out)
      | none => none

/-- Reads one object member `"key" : "value"` (the input starts at the opening quote of the
key): the decoded pair and the input after the value. -/
def readMember (cs : List Char) : Option ((String × String) × List Char) :=
  match cs with
  | '"' :: rest =>
    match readString rest with
    | some (k, afterKey) =>
      match skipWs afterKey with
      | ':' :: afterColon =>
        match skipWs afterColon with
        | '"' :: valueStart =>
          match readString valueStart with
          | some (v, out) => some ((String.mk k, String.mk v), out)
          | none => none
        | _ => none
      | _ => none
    | none => none
  | _ => none

/-- Reads the members of an object after the first one has been read: either the closing
brace followed by whitespace only, or a comma and one more member.  Every round consumes
input, so the length of the input is fuel enough. -/
def readMembers : Nat → List Char → Option (List (String × String))
  | 0, _ => none
  | fuel + 1, cs =>
    match skipWs cs with
    | '}' :: rest => if skipWs rest = [] then some [] else none
    | ',' :: rest =>
      match readMember (skipWs rest) with
      | some (kv, out) =>
        match readMembers fuel out with
        | some kvs => some (kv :: kvs)
        | none => none
      | none => none
    | _ => none

/-- Decodes a JSON text that is an object all of whose member values are strings: the
members in the order they are written; `none` for any other text. -/
def decodeStringObject (text : String) : Option (List (String × String)) :=
  match skipWs text.toList with
  | '{' :: rest =>
    match skipWs rest with
    | '}' :: tail => if skipWs tail = [] then some [] else none
    | cs =>
      match readMember cs with
      | some (kv, out) =>
        match readMembers (out.length + 1) out with
        | some kvs => some (kv :: kvs)
        | none => none
      | none => none
  | _ => none

/-- The health payload of the specification: a JSON object with exactly the three keys
status, version and time, with status "healthy", version the image tag and time the
timestamp. -/
def isHealthPayload (text tag now : String) : Prop :=
  ∃ kvs, decodeStringObject text = some kvs ∧ kvs.length = 3 ∧
    ("status", "healthy") ∈ kvs ∧ ("version", tag) ∈ kvs ∧ ("time", now) ∈ kvs

/-- Characters that a JSON string holds as they are: no double quote, no backslash, no
control character. -/
def plainChar (c : Char) : Bool :=
  c != '"' && c != '\\' && decide (32 ≤ c.toNat)

/-- A request, for examples. -/
def sampleRequest : Request :=
  { Method := "GET", Path := "/health", RemoteAddr := "10.0.0.1:5555", UserAgent := "curl/8" }


/-! ## The lifecycle of `main` -/

/-- Go `error` values: the sentinel `http.ErrServerClosed`, an error with a message, and
an error wrapped by `fmt.Errorf("...: %w", err)`. -/
inductive GoError where
  | ErrServerClosed : GoError
  | errorString (msg : String) : GoError
  | wrapped (msg : String) (err : GoError) : GoError
deriving DecidableEq, Repr

/-- Method `Error()`. -/
def GoError.Error : GoError → String
  | .ErrServerClosed => "http: Server closed"
  | .errorString msg => msg
  | .wrapped msg err => msg ++ err.Error

/-- What the goroutine's `server.ListenAndServe()` does: it returns `err` before any
termination signal is delivered, or it is still serving when the signal arrives and
returns `http.ErrServerClosed` once `Shutdown` is called. -/
inductive ServeOutcome where
  | returns (err : Option GoError) : ServeOutcome
  | serving : ServeOutcome
deriving DecidableEq, Repr

/-- The outcomes of the effects of one run of the process, each consulted where the
program performs the effect: `os.MkdirAll` and `os.OpenFile` in `initLogger`,
`otlptracehttp.New` in `initTracing`, `ListenAndServe` in the goroutine, whether SIGINT or
SIGTERM is ever delivered, and `server.Shutdown`. -/
structure Outcomes where
  mkdirAll : Option GoError
  openFile : Option GoError
  newExporter : Option GoError
  listenAndServe : ServeOutcome
  signal : Bool
  shutdown : Option GoError
deriving DecidableEq, Repr

/-- One run of the process: the exit code (`none` when the process never terminates, being
blocked in `<-quit`), what was printed to standard output by `fmt.Printf`, and the calls
to `logger` in the order they are made. -/
structure ProcessRun where
  exitCode : Option Nat
  stdout : List String
  logs : List LogCall
deriving DecidableEq, Repr

/-- Function `initLogger`: the returned error (`none` is `nil`). -/
def initLogger (_env : Environ) (o : Outcomes) : Option GoError :=
  match o.mkdirAll with
  | some err => some (.wrapped "failed to create log directory: " err)
  | none =>
    match o.openFile with
    | some err => some (.wrapped "failed to open log file: " err)
    | none => none

/-- Function `initTracing`: the returned error and the calls to `logger`. -/
def initTracing (env : Environ) (o : Outcomes) : Option GoError × List LogCall :=
  if Getenv env "OTEL_ENDPOINT" = "" then
    (none, [{ level := LevelWarn, msg := "OTEL_ENDPOINT not set, skipping tracing setup",
              args := [] }])
  else
    match o.newExporter with
    | some err => (some (.wrapped "failed to create trace exporter: " err), [])
    | none => (none, [])

/-- The test `err != nil && err != http.ErrServerClosed` of the goroutine. -/
def serveFailed (err : Option GoError) : Bool :=
  err ≠ none && err ≠ some GoError.ErrServerClosed

/-- What `ListenAndServe` returns in the goroutine. -/
def ServeOutcome.result : ServeOutcome → Option GoError
  | .returns err => err
  | .serving => some GoError.ErrServerClosed

/-- Function `main`.  Returning from `main` ends the process with exit code 0, `os.Exit(1)`
with exit code 1.  The goroutine is run up to the return of `ListenAndServe` before the
main thread takes the signal. -/
def main (env : Environ) (o : Outcomes) : ProcessRun :=
  match initLogger env o with
  | some err =>
    { exitCode := some 1,
      stdout := ["Failed to initialize logger: " ++ err.Error ++ "\n"],
      logs := [] }
  | none =>
    let logs1 : List LogCall :=
      [{ level := LevelInfo, msg := "Starting Go application",
         args := [⟨"version", Getenv env "IMAGE_TAG"⟩] }]
    match initTracing env o with
    | (some err, tlogs) =>
      { exitCode := some 1, stdout := [],
        logs := logs1 ++ tlogs ++
          [{ level := LevelError, msg := "Failed to initialize tracing",
             args := [⟨"error", err.Error⟩] }] }
    | (none, tlogs) =>
      let logs2 := logs1 ++ tlogs ++
        [{ level := LevelInfo, msg := "Server starting", args := [⟨"port", "3000"⟩] }]
      if serveFailed o.listenAndServe.result then
        { exitCode := some 1, stdout := [],
          logs := logs2 ++
            [{ level := LevelError, msg := "Server failed to start",
               args := [⟨"error",
                 match o.listenAndServe.result with
                 | some err => err.Error
                 | none => ""⟩] }] }
      else if o.signal then
        let logs3 := logs2 ++ [{ level := LevelInfo, msg := "Server shutting down", args := [] }]
        let logs4 :=
          match o.shutdown with
          | some err =>
            logs3 ++ [{ level := LevelError, msg := "Server forced to shutdown",
                        args := [⟨"error", err.Error⟩] }]
          | none => logs3
        { exitCode := some 0, stdout := [],
          logs := logs4 ++ [{ level := LevelInfo, msg := "Server exited", args := [] }] }
      else
        { exitCode := none, stdout := [], logs := logs2 }

/-- The error `context.DeadlineExceeded`, returned by `Shutdown` when the 30 seconds are
over. -/
def DeadlineExceeded : GoError := .errorString "context deadline exceeded"

/-- A run in which everything starts, a signal arrives and the shutdown times out. -/
def timedOutRun : Outcomes :=
  { mkdirAll := none, openFile := none, newExporter := none, listenAndServe := .serving,
    signal := true, shutdown := some DeadlineExceeded }

/-- A run in which the port is already in use. -/
def bindFailureRun : Outcomes :=
  { mkdirAll := none, openFile := none, newExporter := none,
    listenAndServe := .returns (some (.errorString "listen tcp :3000: bind: address already in use")),
    signal := true, shutdown := none }

end VpsTemplate

/-! ## Theorems -/

namespace VpsTemplate

section FanoutLemmas

variable {H Ctx Err W : Type}

theorem enabledLoop_iff (ops : HandlerOps H Ctx Err W) (ctx : Ctx) (level : Level)
    (hs : List H) :
    enabledLoop ops ctx level hs = true ↔ ∃ handler ∈ hs, ops.Enabled handler ctx level = true := by
  induction hs with
  | nil => simp [enabledLoop]
  | cons handler rest ih =>
    by_cases hen : ops.Enabled handler ctx level = true
    · simp [enabledLoop, hen]
    · simp [enabledLoop, hen, ih]

/-- Every call in the trace of the loop is a call to the destination at the recorded
position, that destination is enabled, and it receives the record unchanged. -/
theorem handleLoop_calls (ops : HandlerOps H Ctx Err W) (ctx : Ctx) (record : Record)
    (hs : List H) (i : Nat) (w : W) :
    ∀ c ∈ (handleLoop ops ctx record hs i w).calls,
      i ≤ c.index ∧ hs[c.index - i]? = some c.handler ∧
        ops.Enabled c.handler ctx record.Level = true ∧ c.record = record := by
  induction hs generalizing i w with
  | nil => simp [handleLoop]
  | cons handler rest ih =>
    intro c hc
    have step : ∀ w1, ∀ c ∈ (handleLoop ops ctx record rest (i + 1) w1).calls,
        i ≤ c.index ∧ (handler :: rest)[c.index - i]? = some c.handler ∧
          ops.Enabled c.handler ctx record.Level = true ∧ c.record = record := by
      intro w1 c hc
      obtain ⟨h1, h2, h3, h4⟩ := ih (i + 1) w1 c hc
      refine ⟨by omega, ?_, h3, h4⟩
      have e : c.index - i = (c.index - (i + 1)) + 1 := by omega
      rw [e, List.getElem?_cons_succ]
      exact h2
    unfold handleLoop at hc
    by_cases hen : ops.Enabled handler ctx record.Level = true
    · rw [if_pos hen] at hc
      rcases hres : ops.Handle handler ctx record w with ⟨w1, _ | err⟩
      · rw [hres] at hc
        simp only [List.mem_cons] at hc
        rcases hc with rfl | hc
        · simp [hen]
        · exact step w1 c hc
      · rw [hres] at hc
        simp only [List.mem_singleton] at hc
        subst hc
        simp [hen]
    · rw [if_neg hen] at hc
      exact step w c hc

/-- The calls of the loop are made in list order, each position at most once. -/
theorem handleLoop_sorted (ops : HandlerOps H Ctx Err W) (ctx : Ctx) (record : Record)
    (hs : List H) (i : Nat) (w : W) :
    (handleLoop ops ctx record hs i w).calls.Pairwise (fun a b => a.index < b.index) := by
  induction hs generalizing i w with
  | nil => simp [handleLoop]
  | cons handler rest ih =>
    unfold handleLoop
    by_cases hen : ops.Enabled handler ctx record.Level = true
    · rw [if_pos hen]
      rcases hres : ops.Handle handler ctx record w with ⟨w1, _ | err⟩
      · simp only [List.pairwise_cons]
        refine ⟨?_, ih (i + 1) w1⟩
        intro c hc
        have := (handleLoop_calls ops ctx record rest (i + 1) w1 c hc).1
        show i < c.index
        omega
      · simp
    · rw [if_neg hen]
      exact ih (i + 1) w

/-- The world after the loop is the world obtained by performing exactly the recorded
calls, in order; and every recorded result is what the destination returned. -/
theorem handleLoop_world (ops : HandlerOps H Ctx Err W) (ctx : Ctx) (record : Record)
    (hs : List H) (i : Nat) (w : W) :
    (handleLoop ops ctx record hs i w).world =
      (handleLoop ops ctx record hs i w).calls.foldl
        (fun v c => (ops.Handle c.handler ctx c.record v).1) w := by
  induction hs generalizing i w with
  | nil => simp [handleLoop]
  | cons handler rest ih =>
    unfold handleLoop
    by_cases hen : ops.Enabled handler ctx record.Level = true
    · rw [if_pos hen]
      rcases hres : ops.Handle handler ctx record w with ⟨w1, _ | err⟩
      · simp only [List.foldl_cons, hres]
        exact ih (i + 1) w1
      · simp [hres]
    · rw [if_neg hen]
      exact ih (i + 1) w

/-- Every recorded result is what the destination returned when it was called, in the
world left by the calls recorded before it. -/
theorem handleLoop_results (ops : HandlerOps H Ctx Err W) (ctx : Ctx) (record : Record)
    (hs : List H) (i : Nat) (w : W) (pre : List (Call H Err)) (c : Call H Err)
    (post : List (Call H Err))
    (hsplit : (handleLoop ops ctx record hs i w).calls = pre ++ c :: post) :
    c.result = (ops.Handle c.handler ctx c.record
      (pre.foldl (fun v d => (ops.Handle d.handler ctx d.record v).1) w)).2 := by
  induction hs generalizing i w pre with
  | nil => simp [handleLoop] at hsplit
  | cons handler rest ih =>
    unfold handleLoop at hsplit
    by_cases hen : ops.Enabled handler ctx record.Level = true
    · rw [if_pos hen] at hsplit
      rcases hres : ops.Handle handler ctx record w with ⟨w1, _ | err⟩
      · rw [hres] at hsplit
        dsimp only at hsplit
        cases pre with
        | nil =>
          simp only [List.nil_append, List.cons.injEq] at hsplit
          rw [← hsplit.1]
          simp [hres]
        | cons p pre1 =>
          simp only [List.cons_append, List.cons.injEq] at hsplit
          have := ih (i + 1) w1 pre1 hsplit.2
          rw [this, List.foldl_cons, ← hsplit.1]
          simp only [hres]
      · rw [hres] at hsplit
        dsimp only at hsplit
        cases pre with
        | nil =>
          simp only [List.nil_append, List.cons.injEq] at hsplit
          rw [← hsplit.1]
          simp [hres]
        | cons p pre1 =>
          simp at hsplit
    · rw [if_neg hen] at hsplit
      exact ih (i + 1) w pre hsplit

/-- A recorded call that failed is the last recorded call. -/
theorem handleLoop_fail_last (ops : HandlerOps H Ctx Err W) (ctx : Ctx) (record : Record)
    (hs : List H) (i : Nat) (w : W) (pre : List (Call H Err)) (c : Call H Err)
    (post : List (Call H Err))
    (hsplit : (handleLoop ops ctx record hs i w).calls = pre ++ c :: post)
    (hne : c.result ≠ none) : post = [] := by
  induction hs generalizing i w pre with
  | nil => simp [handleLoop] at hsplit
  | cons handler rest ih =>
    unfold handleLoop at hsplit
    by_cases hen : ops.Enabled handler ctx record.Level = true
    · rw [if_pos hen] at hsplit
      rcases hres : ops.Handle handler ctx record w with ⟨w1, _ | err⟩
      · rw [hres] at hsplit
        dsimp only at hsplit
        cases pre with
        | nil =>
          simp only [List.nil_append, List.cons.injEq] at hsplit
          rw [← hsplit.1] at hne
          exact absurd rfl hne
        | cons p pre1 =>
          simp only [List.cons_append, List.cons.injEq] at hsplit
          exact ih (i + 1) w1 pre1 hsplit.2
      · rw [hres] at hsplit
        dsimp only at hsplit
        cases pre with
        | nil =>
          simp only [List.nil_append, List.cons.injEq] at hsplit
          exact hsplit.2.symm
        | cons p pre1 =>
          simp at hsplit
    · rw [if_neg hen] at hsplit
      exact ih (i + 1) w pre hsplit

theorem deliver_cons (ops : HandlerOps H Ctx Err W) (ctx : Ctx) (record : Record) (d : H)
    (ds : List H) (w : W) :
    deliver ops ctx record (d :: ds) w =
      deliver ops ctx record ds (ops.Handle d ctx record w).1 := rfl

/-- The loop in terms of the destinations alone.  When it returns `nil`, every enabled
destination was called in turn and returned `nil`; when it returns an error `e`, the
enabled destinations before some position `k` were called in turn and returned `nil`,
the one at position `k` was called next and returned `e`, and no other destination was
called. -/
theorem handleLoop_spec (ops : HandlerOps H Ctx Err W) (ctx : Ctx) (record : Record)
    (hs : List H) (i : Nat) (w : W) :
    ((handleLoop ops ctx record hs i w).err = none →
      (∀ j d, (enabledFor ops ctx record hs)[j]? = some d →
        (ops.Handle d ctx record
          (deliver ops ctx record ((enabledFor ops ctx record hs).take j) w)).2 = none) ∧
      (handleLoop ops ctx record hs i w).world =
        deliver ops ctx record (enabledFor ops ctx record hs) w ∧
      (handleLoop ops ctx record hs i w).calls.map (fun c => c.handler) =
        enabledFor ops ctx record hs) ∧
    (∀ e, (handleLoop ops ctx record hs i w).err = some e →
      ∃ k d, (enabledFor ops ctx record hs)[k]? = some d ∧
        (∀ j d1, j < k → (enabledFor ops ctx record hs)[j]? = some d1 →
          (ops.Handle d1 ctx record
            (deliver ops ctx record ((enabledFor ops ctx record hs).take j) w)).2 = none) ∧
        (ops.Handle d ctx record
          (deliver ops ctx record ((enabledFor ops ctx record hs).take k) w)).2 = some e ∧
        (handleLoop ops ctx record hs i w).world =
          deliver ops ctx record ((enabledFor ops ctx record hs).take (k + 1)) w ∧
        (handleLoop ops ctx record hs i w).calls.map (fun c => c.handler) =
          (enabledFor ops ctx record hs).take (k + 1)) := by
  induction hs generalizing i w with
  | nil =>
    constructor
    · intro _
      refine ⟨?_, rfl, rfl⟩
      intro j d hj
      simp [enabledFor] at hj
    · intro e he
      simp [handleLoop] at he
  | cons handler rest ih =>
    by_cases hen : ops.Enabled handler ctx record.Level = true
    · have hfil : enabledFor ops ctx record (handler :: rest) =
          handler :: enabledFor ops ctx record rest := by
        simp [enabledFor, List.filter_cons, hen]
      rw [hfil]
      unfold handleLoop
      rw [if_pos hen]
      rcases hres : ops.Handle handler ctx record w with ⟨w1, _ | err⟩
      · dsimp only
        have hw1 : (ops.Handle handler ctx record w).1 = w1 := by rw [hres]
        obtain ⟨ih1, ih2⟩ := ih (i + 1) w1
        constructor
        · intro herr
          obtain ⟨a1, a2, a3⟩ := ih1 herr
          refine ⟨?_, ?_, ?_⟩
          · intro j d hj
            cases j with
            | zero =>
              simp only [List.getElem?_cons_zero, Option.some.injEq] at hj
              subst hj
              simp [deliver, hres]
            | succ j1 =>
              simp only [List.getElem?_cons_succ] at hj
              rw [List.take_succ_cons, deliver_cons, hw1]
              exact a1 j1 d hj
          · rw [deliver_cons, hw1]
            exact a2
          · simp only [List.map_cons, a3]
        · intro e he
          obtain ⟨k, d, b1, b2, b3, b4, b5⟩ := ih2 e he
          refine ⟨k + 1, d, ?_, ?_, ?_, ?_, ?_⟩
          · simpa only [List.getElem?_cons_succ] using b1
          · intro j d1 hj hd1
            cases j with
            | zero =>
              simp only [List.getElem?_cons_zero, Option.some.injEq] at hd1
              subst hd1
              simp [deliver, hres]
            | succ j1 =>
              simp only [List.getElem?_cons_succ] at hd1
              rw [List.take_succ_cons, deliver_cons, hw1]
              exact b2 j1 d1 (by omega) hd1
          · rw [List.take_succ_cons, deliver_cons, hw1]
            exact b3
          · rw [List.take_succ_cons, deliver_cons, hw1]
            exact b4
          · simp only [List.map_cons, b5, List.take_succ_cons]
      · dsimp only
        constructor
        · intro herr
          simp at herr
        · intro e he
          simp only [Option.some.injEq] at he
          subst he
          refine ⟨0, handler, List.getElem?_cons_zero, ?_, ?_, ?_, ?_⟩
          · intro j d1 hj
            omega
          · simp [deliver, hres]
          · simp [deliver, hres]
          · simp
    · have hfil : enabledFor ops ctx record (handler :: rest) =
          enabledFor ops ctx record rest := by
        simp [enabledFor, List.filter_cons, hen]
      rw [hfil]
      unfold handleLoop
      rw [if_neg hen]
      exact ih (i + 1) w

/-- The loop returns `nil` exactly when no recorded call failed; when it returns an error,
that error is the result of the last recorded call and every other recorded call
succeeded. -/
theorem handleLoop_err (ops : HandlerOps H Ctx Err W) (ctx : Ctx) (record : Record)
    (hs : List H) (i : Nat) (w : W) :
    ((handleLoop ops ctx record hs i w).err = none ↔
        ∀ c ∈ (handleLoop ops ctx record hs i w).calls, c.result = none) ∧
    (∀ e, (handleLoop ops ctx record hs i w).err = some e →
        ∃ pre c, (handleLoop ops ctx record hs i w).calls = pre ++ [c] ∧
          c.result = some e ∧ ∀ d ∈ pre, d.result = none) := by
  induction hs generalizing i w with
  | nil => simp [handleLoop]
  | cons handler rest ih =>
    unfold handleLoop
    by_cases hen : ops.Enabled handler ctx record.Level = true
    · rw [if_pos hen]
      rcases hres : ops.Handle handler ctx record w with ⟨w1, _ | err⟩
      · obtain ⟨ih1, ih2⟩ := ih (i + 1) w1
        dsimp only
        constructor
        · simp only [List.mem_cons, forall_eq_or_imp, true_and]
          exact ih1
        · intro e he
          obtain ⟨pre, c, h1, h2, h3⟩ := ih2 e he
          refine ⟨{ index := i, handler := handler, record := record, result := none } :: pre,
            c, ?_, h2, ?_⟩
          · simp only [h1, List.cons_append]
          · intro d hd
            simp only [List.mem_cons] at hd
            rcases hd with rfl | hd
            · rfl
            · exact h3 d hd
      · dsimp only
        constructor
        · simp
        · intro e he
          simp only [Option.some.injEq] at he
          subst he
          exact ⟨[], _, rfl, rfl, by simp⟩
    · rw [if_neg hen]
      exact ih (i + 1) w

/-- An enabled destination is called by the loop exactly when every call made to a
destination before it succeeded. -/
theorem handleLoop_invoked (ops : HandlerOps H Ctx Err W) (ctx : Ctx) (record : Record)
    (hs : List H) (i : Nat) (w : W) (j : Nat) (hj : j < hs.length)
    (hen : ops.Enabled hs[j] ctx record.Level = true) :
    (∃ c ∈ (handleLoop ops ctx record hs i w).calls, c.index = i + j) ↔
      ∀ c ∈ (handleLoop ops ctx record hs i w).calls, c.index < i + j → c.result = none := by
  induction hs generalizing i w j with
  | nil => simp at hj
  | cons handler rest ih =>
    have low : ∀ w1, ∀ c ∈ (handleLoop ops ctx record rest (i + 1) w1).calls, i + 1 ≤ c.index :=
      fun w1 c hc => (handleLoop_calls ops ctx record rest (i + 1) w1 c hc).1
    have step : ∀ w1, 0 < j →
        ((∃ c ∈ (handleLoop ops ctx record rest (i + 1) w1).calls, c.index = i + j) ↔
          ∀ c ∈ (handleLoop ops ctx record rest (i + 1) w1).calls,
            c.index < i + j → c.result = none) := by
      intro w1 hpos
      obtain ⟨k, rfl⟩ : ∃ k, j = k + 1 := ⟨j - 1, by omega⟩
      have hk : k < rest.length := by simpa using hj
      have hen1 : ops.Enabled rest[k] ctx record.Level = true := by simpa using hen
      have := ih (i + 1) w1 k hk hen1
      have e : i + 1 + k = i + (k + 1) := by omega
      rw [e] at this
      exact this
    unfold handleLoop
    by_cases hen0 : ops.Enabled handler ctx record.Level = true
    · rw [if_pos hen0]
      rcases hres : ops.Handle handler ctx record w with ⟨w1, _ | err⟩
      · dsimp only
        rcases Nat.eq_zero_or_pos j with rfl | hpos
        · constructor
          · intro _ c hc hlt
            simp only [List.mem_cons] at hc
            rcases hc with rfl | hc
            · rfl
            · have := low w1 c hc
              omega
          · intro _
            exact ⟨_, List.mem_cons_self _ _, rfl⟩
        · simp only [List.mem_cons, exists_eq_or_imp, forall_eq_or_imp]
          constructor
          · rintro (h0 | h1)
            · omega
            · exact ⟨fun _ => trivial, (step w1 hpos).1 h1⟩
          · rintro ⟨_, h1⟩
            exact Or.inr ((step w1 hpos).2 h1)
      · dsimp only
        rcases Nat.eq_zero_or_pos j with rfl | hpos
        · simp
        · simp only [List.mem_singleton, exists_eq_left, forall_eq]
          constructor
          · intro h0
            omega
          · intro h0
            have := h0 (by omega)
            simp at this
    · rw [if_neg hen0]
      rcases Nat.eq_zero_or_pos j with rfl | hpos
      · simp at hen
        exact absurd hen hen0
      · exact step w hpos

/-- The loop of `WithAttrs` never assigns to the receiver. -/
theorem withAttrsLoop_h (ops : HandlerOps H Ctx Err W) (attrs : List Attr) (hs : List H)
    (i : Nat) (s : DeriveState H) : (withAttrsLoop ops attrs hs i s).h = s.h := by
  induction hs generalizing i s with
  | nil => rfl
  | cons handler rest ih => simp only [withAttrsLoop, ih]

/-- Slot `k` of `newHandlers` after the loop of `WithAttrs` started at position `i`. -/
theorem withAttrsLoop_getElem? (ops : HandlerOps H Ctx Err W) (attrs : List Attr)
    (hs : List H) (i : Nat) (s : DeriveState H) (k : Nat) :
    (withAttrsLoop ops attrs hs i s).newHandlers[k]? =
      if i ≤ k ∧ k < i + hs.length ∧ k < s.newHandlers.length then
        (hs[k - i]?).map (fun d => ops.WithAttrs d attrs)
      else s.newHandlers[k]? := by
  induction hs generalizing i s with
  | nil =>
    have : ¬ (i ≤ k ∧ k < i + 0 ∧ k < s.newHandlers.length) := by omega
    simp only [withAttrsLoop, List.length_nil, if_neg this]
  | cons handler rest ih =>
    simp only [withAttrsLoop, ih, List.length_set, List.length_cons]
    by_cases hk : k = i
    · subst hk
      have h1 : ¬ (k + 1 ≤ k ∧ k < k + 1 + rest.length ∧ k < s.newHandlers.length) := by omega
      rw [if_neg h1]
      by_cases hlen : k < s.newHandlers.length
      · have h2 : k ≤ k ∧ k < k + (rest.length + 1) ∧ k < s.newHandlers.length :=
          ⟨le_refl k, by omega, hlen⟩
        rw [if_pos h2]
        simp [hlen]
      · have h2 : ¬ (k ≤ k ∧ k < k + (rest.length + 1) ∧ k < s.newHandlers.length) := by omega
        rw [if_neg h2]
        have hle : s.newHandlers.length ≤ k := by omega
        simp [List.getElem?_eq_none, hle]
    · by_cases hin : i + 1 ≤ k ∧ k < i + 1 + rest.length ∧ k < s.newHandlers.length
      · have h2 : i ≤ k ∧ k < i + (rest.length + 1) ∧ k < s.newHandlers.length := by omega
        rw [if_pos hin, if_pos h2]
        have e : k - i = (k - (i + 1)) + 1 := by omega
        rw [e, List.getElem?_cons_succ]
      · have h2 : ¬ (i ≤ k ∧ k < i + (rest.length + 1) ∧ k < s.newHandlers.length) := by omega
        rw [if_neg hin, if_neg h2]
        exact List.getElem?_set_ne (Ne.symm hk)

/-- The loop of `WithGroup` never assigns to the receiver. -/
theorem withGroupLoop_h (ops : HandlerOps H Ctx Err W) (name : String) (hs : List H)
    (i : Nat) (s : DeriveState H) : (withGroupLoop ops name hs i s).h = s.h := by
  induction hs generalizing i s with
  | nil => rfl
  | cons handler rest ih => simp only [withGroupLoop, ih]

/-- Slot `k` of `newHandlers` after the loop of `WithGroup` started at position `i`. -/
theorem withGroupLoop_getElem? (ops : HandlerOps H Ctx Err W) (name : String)
    (hs : List H) (i : Nat) (s : DeriveState H) (k : Nat) :
    (withGroupLoop ops name hs i s).newHandlers[k]? =
      if i ≤ k ∧ k < i + hs.length ∧ k < s.newHandlers.length then
        (hs[k - i]?).map (fun d => ops.WithGroup d name)
      else s.newHandlers[k]? := by
  induction hs generalizing i s with
  | nil =>
    have : ¬ (i ≤ k ∧ k < i + 0 ∧ k < s.newHandlers.length) := by omega
    simp only [withGroupLoop, List.length_nil, if_neg this]
  | cons handler rest ih =>
    simp only [withGroupLoop, ih, List.length_set, List.length_cons]
    by_cases hk : k = i
    · subst hk
      have h1 : ¬ (k + 1 ≤ k ∧ k < k + 1 + rest.length ∧ k < s.newHandlers.length) := by omega
      rw [if_neg h1]
      by_cases hlen : k < s.newHandlers.length
      · have h2 : k ≤ k ∧ k < k + (rest.length + 1) ∧ k < s.newHandlers.length :=
          ⟨le_refl k, by omega, hlen⟩
        rw [if_pos h2]
        simp [hlen]
      · have h2 : ¬ (k ≤ k ∧ k < k + (rest.length + 1) ∧ k < s.newHandlers.length) := by omega
        rw [if_neg h2]
        have hle : s.newHandlers.length ≤ k := by omega
        simp [List.getElem?_eq_none, hle]
    · by_cases hin : i + 1 ≤ k ∧ k < i + 1 + rest.length ∧ k < s.newHandlers.length
      · have h2 : i ≤ k ∧ k < i + (rest.length + 1) ∧ k < s.newHandlers.length := by omega
        rw [if_pos hin, if_pos h2]
        have e : k - i = (k - (i + 1)) + 1 := by omega
        rw [e, List.getElem?_cons_succ]
      · have h2 : ¬ (i ≤ k ∧ k < i + (rest.length + 1) ∧ k < s.newHandlers.length) := by omega
        rw [if_neg hin, if_neg h2]
        exact List.getElem?_set_ne (Ne.symm hk)

/-- The slice returned by `WithAttrs` is the receiver's slice with `WithAttrs(attrs)`
applied to each destination. -/
theorem WithAttrs_handlers (ops : HandlerOps H Ctx Err W) (h : multiHandler H)
    (attrs : List Attr) :
    (h.WithAttrs ops attrs).result.handlers =
      h.handlers.map (fun d => ops.WithAttrs d attrs) := by
  apply List.ext_getElem?
  intro k
  simp only [multiHandler.WithAttrs, withAttrsLoop_getElem?, makeHandlers,
    List.length_replicate, List.getElem?_map, Nat.sub_zero, Nat.zero_add, Nat.zero_le, true_and,
    and_self]
  by_cases hk : k < h.handlers.length
  · rw [if_pos hk]
  · rw [if_neg hk]
    have hle : h.handlers.length ≤ k := by omega
    simp [List.getElem?_eq_none, hle]

/-- The slice returned by `WithGroup` is the receiver's slice with `WithGroup(name)`
applied to each destination. -/
theorem WithGroup_handlers (ops : HandlerOps H Ctx Err W) (h : multiHandler H)
    (name : String) :
    (h.WithGroup ops name).result.handlers =
      h.handlers.map (fun d => ops.WithGroup d name) := by
  apply List.ext_getElem?
  intro k
  simp only [multiHandler.WithGroup, withGroupLoop_getElem?, makeHandlers,
    List.length_replicate, List.getElem?_map, Nat.sub_zero, Nat.zero_add, Nat.zero_le, true_and,
    and_self]
  by_cases hk : k < h.handlers.length
  · rw [if_pos hk]
  · rw [if_neg hk]
    have hle : h.handlers.length ≤ k := by omega
    simp [List.getElem?_eq_none, hle]

end FanoutLemmas

end VpsTemplate

namespace VpsTemplate

section FanoutClaims

variable {H Ctx Err W : Type}

/-- C1: for every multiHandler (the empty list included), context and level,
`Enabled` returns true if and only if at least one destination in `h.handlers` returns
true from its own `Enabled`. -/
theorem multiHandler_Enabled_iff_any (ops : HandlerOps H Ctx Err W) (h : multiHandler H)
    (ctx : Ctx) (level : Level) :
    h.Enabled ops ctx level = true ↔
      ∃ handler ∈ h.handlers, ops.Enabled handler ctx level = true :=
  enabledLoop_iff ops ctx level h.handlers

/-- C2, as the code has it: `Handle` calls `Handle` on the first `k` enabled destinations
of `h.handlers`, in list order, and on nothing else: the world after it is the world
after these `k` calls, every one of them but the last returned nil, and when an enabled
destination is left uncalled (`k` is less than their number) the last call returned an
error.  So every enabled destination up to and including the first one whose `Handle`
fails is invoked, and none after it.  In terms of the recorded calls: an enabled
destination at position `i` is called exactly when every call made before it returned
nil; each recorded call is a call of the destination at its position, enabled, with the
record unchanged, in list order; the world and the recorded results are those of exactly
these calls through the destinations' own `Handle`; and a call that failed is the last
one. -/
theorem multiHandler_Handle_invokes_until_failure (ops : HandlerOps H Ctx Err W)
    (h : multiHandler H) (ctx : Ctx) (record : Record) (w : W) :
    (∃ k, k ≤ (enabledFor ops ctx record h.handlers).length ∧
      (h.Handle ops ctx record w).calls.map (fun c => c.handler) =
        (enabledFor ops ctx record h.handlers).take k ∧
      (h.Handle ops ctx record w).world =
        deliver ops ctx record ((enabledFor ops ctx record h.handlers).take k) w ∧
      (∀ j d, j + 1 < k → (enabledFor ops ctx record h.handlers)[j]? = some d →
        (ops.Handle d ctx record
          (deliver ops ctx record ((enabledFor ops ctx record h.handlers).take j) w)).2 =
            none) ∧
      (k < (enabledFor ops ctx record h.handlers).length →
        ∃ d e, 0 < k ∧ (enabledFor ops ctx record h.handlers)[k - 1]? = some d ∧
          (ops.Handle d ctx record
            (deliver ops ctx record
              ((enabledFor ops ctx record h.handlers).take (k - 1)) w)).2 = some e)) ∧
    (∀ i handler, h.handlers[i]? = some handler →
      ops.Enabled handler ctx record.Level = true →
      ((∃ c ∈ (h.Handle ops ctx record w).calls,
          c.index = i ∧ c.handler = handler ∧ c.record = record) ↔
        ∀ c ∈ (h.Handle ops ctx record w).calls, c.index < i → c.result = none)) ∧
    (∀ c ∈ (h.Handle ops ctx record w).calls,
        h.handlers[c.index]? = some c.handler ∧
          ops.Enabled c.handler ctx record.Level = true ∧ c.record = record) ∧
    (h.Handle ops ctx record w).calls.Pairwise (fun a b => a.index < b.index) ∧
    (h.Handle ops ctx record w).world =
      (h.Handle ops ctx record w).calls.foldl
        (fun v c => (ops.Handle c.handler ctx c.record v).1) w ∧
    (∀ pre c post, (h.Handle ops ctx record w).calls = pre ++ c :: post →
      c.result = (ops.Handle c.handler ctx c.record
        (pre.foldl (fun v d => (ops.Handle d.handler ctx d.record v).1) w)).2) ∧
    (∀ pre c post, (h.Handle ops ctx record w).calls = pre ++ c :: post →
      c.result ≠ none → post = []) := by
  have hcalls := handleLoop_calls ops ctx record h.handlers 0 w
  obtain ⟨hspec1, hspec2⟩ := handleLoop_spec ops ctx record h.handlers 0 w
  refine ⟨?_, ?_, ?_, handleLoop_sorted ops ctx record h.handlers 0 w,
    handleLoop_world ops ctx record h.handlers 0 w,
    fun pre c post hsplit => handleLoop_results ops ctx record h.handlers 0 w pre c post hsplit,
    fun pre c post hsplit hne =>
      handleLoop_fail_last ops ctx record h.handlers 0 w pre c post hsplit hne⟩
  · unfold multiHandler.Handle
    cases herr : (handleLoop ops ctx record h.handlers 0 w).err with
    | none =>
      obtain ⟨a1, a2, a3⟩ := hspec1 herr
      refine ⟨(enabledFor ops ctx record h.handlers).length, le_refl _, ?_, ?_, ?_, ?_⟩
      · rw [List.take_length]; exact a3
      · rw [List.take_length]; exact a2
      · intro j d _ hj
        exact a1 j d hj
      · intro hlt
        exact absurd hlt (lt_irrefl _)
    | some e =>
      obtain ⟨k, d, b1, b2, b3, b4, b5⟩ := hspec2 e herr
      have hk : k < (enabledFor ops ctx record h.handlers).length :=
        (List.getElem?_eq_some_iff.mp b1).1
      refine ⟨k + 1, hk, b5, b4, ?_, ?_⟩
      · intro j d1 hj hd1
        exact b2 j d1 (by omega) hd1
      · intro _
        exact ⟨d, e, Nat.succ_pos k, by simpa using b1, by simpa using b3⟩
  · intro i handler hi hen
    obtain ⟨hlt, hget⟩ := List.getElem?_eq_some_iff.mp hi
    have key := handleLoop_invoked ops ctx record h.handlers 0 w i hlt
      (by rw [hget]; exact hen)
    simp only [Nat.zero_add] at key
    unfold multiHandler.Handle
    rw [← key]
    constructor
    · rintro ⟨c, hc, h1, -, -⟩
      exact ⟨c, hc, h1⟩
    · rintro ⟨c, hc, h1⟩
      obtain ⟨-, h2, -, h4⟩ := hcalls c hc
      refine ⟨c, hc, h1, ?_, h4⟩
      rw [Nat.sub_zero, h1, hi] at h2
      exact (Option.some.inj h2).symm
  · intro c hc
    obtain ⟨-, h2, h3, h4⟩ := hcalls c hc
    rw [Nat.sub_zero] at h2
    exact ⟨h2, h3, h4⟩

/-- C3: the value `Handle` returns, in terms of the destinations' own `Handle`.  It is
nil exactly when every enabled destination of `h.handlers`, called in list order, returned
nil (and then all of them were called); it is the error `e` exactly when the enabled
destinations before some position returned nil and the one at that position, called next,
returned `e` (and then this call was the last): `e` is the error of the first enabled
destination, in list order, whose `Handle` fails, never that of a later one.  The same in
terms of the recorded calls, whose results are what the destinations returned: nil
exactly when no recorded call failed; an error `e` is the result of the last recorded
call, made to an enabled destination at its position, after every enabled destination
before it was called and returned nil. -/
theorem multiHandler_Handle_returns_first_failure (ops : HandlerOps H Ctx Err W)
    (h : multiHandler H) (ctx : Ctx) (record : Record) (w : W) :
    ((h.Handle ops ctx record w).err = none ↔
      ∀ j d, (enabledFor ops ctx record h.handlers)[j]? = some d →
        (ops.Handle d ctx record
          (deliver ops ctx record ((enabledFor ops ctx record h.handlers).take j) w)).2 =
            none) ∧
    (∀ e, (h.Handle ops ctx record w).err = some e ↔
      ∃ k d, (enabledFor ops ctx record h.handlers)[k]? = some d ∧
        (∀ j d1, j < k → (enabledFor ops ctx record h.handlers)[j]? = some d1 →
          (ops.Handle d1 ctx record
            (deliver ops ctx record ((enabledFor ops ctx record h.handlers).take j) w)).2 =
              none) ∧
        (ops.Handle d ctx record
          (deliver ops ctx record ((enabledFor ops ctx record h.handlers).take k) w)).2 =
            some e) ∧
    ((h.Handle ops ctx record w).err = none →
      (h.Handle ops ctx record w).world =
        deliver ops ctx record (enabledFor ops ctx record h.handlers) w) ∧
    ((h.Handle ops ctx record w).err = none ↔
        ∀ c ∈ (h.Handle ops ctx record w).calls, c.result = none) ∧
    ((h.Handle ops ctx record w).err = none →
        ∀ j handler, h.handlers[j]? = some handler →
          ops.Enabled handler ctx record.Level = true →
          ∃ c ∈ (h.Handle ops ctx record w).calls,
            c.index = j ∧ c.handler = handler ∧ c.result = none) ∧
    (∀ e, (h.Handle ops ctx record w).err = some e →
        ∃ pre c, (h.Handle ops ctx record w).calls = pre ++ [c] ∧
          c.result = some e ∧ h.handlers[c.index]? = some c.handler ∧
          ops.Enabled c.handler ctx record.Level = true ∧
          (∀ d ∈ pre, d.index < c.index ∧ d.result = none) ∧
          (∀ j handler, j < c.index → h.handlers[j]? = some handler →
            ops.Enabled handler ctx record.Level = true →
            ∃ d ∈ pre, d.index = j ∧ d.handler = handler ∧ d.result = none)) ∧
    (∀ c ∈ (h.Handle ops ctx record w).calls,
        h.handlers[c.index]? = some c.handler ∧
          ops.Enabled c.handler ctx record.Level = true ∧ c.record = record) ∧
    (∀ pre c post, (h.Handle ops ctx record w).calls = pre ++ c :: post →
      c.result = (ops.Handle c.handler ctx c.record
        (pre.foldl (fun v d => (ops.Handle d.handler ctx d.record v).1) w)).2) := by
  obtain ⟨hnone, hsome⟩ := handleLoop_err ops ctx record h.handlers 0 w
  obtain ⟨hspec1, hspec2⟩ := handleLoop_spec ops ctx record h.handlers 0 w
  have hcalls := handleLoop_calls ops ctx record h.handlers 0 w
  have hsorted := handleLoop_sorted ops ctx record h.handlers 0 w
  have hinv : ∀ j handler, h.handlers[j]? = some handler →
      ops.Enabled handler ctx record.Level = true →
      (∀ c ∈ (handleLoop ops ctx record h.handlers 0 w).calls,
        c.index < j → c.result = none) →
      ∃ c ∈ (handleLoop ops ctx record h.handlers 0 w).calls,
        c.index = j ∧ c.handler = handler := by
    intro j handler hj hen hall
    obtain ⟨hlt, hget⟩ := List.getElem?_eq_some_iff.mp hj
    have key := handleLoop_invoked ops ctx record h.handlers 0 w j hlt (by rw [hget]; exact hen)
    simp only [Nat.zero_add] at key
    obtain ⟨c, hc, hcj⟩ := key.2 hall
    refine ⟨c, hc, hcj, ?_⟩
    have h2 := (hcalls c hc).2.1
    rw [Nat.sub_zero, hcj, hj] at h2
    exact (Option.some.inj h2).symm
  refine ⟨?_, ?_, fun herr => (hspec1 herr).2.1, hnone, ?_, ?_, ?_,
    fun pre c post hsplit => handleLoop_results ops ctx record h.handlers 0 w pre c post hsplit⟩
  · constructor
    · intro herr
      exact (hspec1 herr).1
    · intro hall
      cases herr : (h.Handle ops ctx record w).err with
      | none => rfl
      | some e =>
        obtain ⟨k, d, b1, -, b3, -, -⟩ := hspec2 e herr
        rw [hall k d b1] at b3
        exact Option.noConfusion b3
  · intro e
    constructor
    · intro herr
      obtain ⟨k, d, b1, b2, b3, -, -⟩ := hspec2 e herr
      exact ⟨k, d, b1, b2, b3⟩
    · rintro ⟨k, d, c1, c2, c3⟩
      cases herr : (h.Handle ops ctx record w).err with
      | none =>
        rw [(hspec1 herr).1 k d c1] at c3
        exact Option.noConfusion c3
      | some e1 =>
        obtain ⟨k1, d1, b1, b2, b3, -, -⟩ := hspec2 e1 herr
        rcases Nat.lt_trichotomy k k1 with hlt | heq | hgt
        · rw [b2 k d hlt c1] at c3
          exact Option.noConfusion c3
        · subst heq
          rw [c1] at b1
          obtain rfl := Option.some.inj b1
          rw [c3] at b3
          exact b3.symm
        · rw [c2 k1 d1 hgt b1] at b3
          exact Option.noConfusion b3
  · intro herr j handler hj hen
    obtain ⟨c, hc, h1, h2⟩ := hinv j handler hj hen (fun c hc _ => hnone.1 herr c hc)
    exact ⟨c, hc, h1, h2, hnone.1 herr c hc⟩
  · intro e he
    obtain ⟨pre, c, hpre, hres, hall⟩ := hsome e he
    have hc : c ∈ (handleLoop ops ctx record h.handlers 0 w).calls := by
      rw [hpre]; simp
    have hlt : ∀ d ∈ pre, d.index < c.index := by
      intro d hd
      rw [hpre, List.pairwise_append] at hsorted
      exact hsorted.2.2 d hd c (List.mem_singleton_self c)
    obtain ⟨-, hget, hen, -⟩ := hcalls c hc
    rw [Nat.sub_zero] at hget
    refine ⟨pre, c, hpre, hres, hget, hen, fun d hd => ⟨hlt d hd, hall d hd⟩, ?_⟩
    intro j handler hj hjget hjen
    have hbefore : ∀ d ∈ (handleLoop ops ctx record h.handlers 0 w).calls,
        d.index < j → d.result = none := by
      intro d hd hdj
      rw [hpre, List.mem_append, List.mem_singleton] at hd
      rcases hd with hd | rfl
      · exact hall d hd
      · omega
    obtain ⟨d, hd, h1, h2⟩ := hinv j handler hjget hjen hbefore
    rw [hpre, List.mem_append, List.mem_singleton] at hd
    rcases hd with hd | rfl
    · exact ⟨d, hd, h1, h2, hall d hd⟩
    · omega
  · intro c hc
    obtain ⟨-, h2, h3, h4⟩ := hcalls c hc
    rw [Nat.sub_zero] at h2
    exact ⟨h2, h3, h4⟩

/-- C4: every call `Handle` makes goes to the destination of `h.handlers` at the recorded
position, that destination's own `Enabled` accepts the level of the record, and it
receives the record unchanged; the calls are made at strictly increasing positions (list
order, each destination at most once); the effect of `Handle` on the world is the effect
of exactly these calls, and each recorded result is what the destination returned. -/
theorem multiHandler_Handle_only_enabled_in_order (ops : HandlerOps H Ctx Err W)
    (h : multiHandler H) (ctx : Ctx) (record : Record) (w : W) :
    (∀ c ∈ (h.Handle ops ctx record w).calls,
        h.handlers[c.index]? = some c.handler ∧
          ops.Enabled c.handler ctx record.Level = true ∧ c.record = record) ∧
    (h.Handle ops ctx record w).calls.Pairwise (fun a b => a.index < b.index) ∧
    (h.Handle ops ctx record w).world =
      (h.Handle ops ctx record w).calls.foldl
        (fun v c => (ops.Handle c.handler ctx c.record v).1) w ∧
    (∀ pre c post, (h.Handle ops ctx record w).calls = pre ++ c :: post →
      c.result = (ops.Handle c.handler ctx c.record
        (pre.foldl (fun v d => (ops.Handle d.handler ctx d.record v).1) w)).2) := by
  refine ⟨?_, handleLoop_sorted ops ctx record h.handlers 0 w,
    handleLoop_world ops ctx record h.handlers 0 w,
    fun pre c post hsplit => handleLoop_results ops ctx record h.handlers 0 w pre c post hsplit⟩
  intro c hc
  obtain ⟨-, h2, h3, h4⟩ := handleLoop_calls ops ctx record h.handlers 0 w c hc
  rw [Nat.sub_zero] at h2
  exact ⟨h2, h3, h4⟩

/-- C5: `WithAttrs` returns a multiHandler whose slice has the length of `h.handlers` and
whose i-th element is `h.handlers[i].WithAttrs(attrs)` for every `i`; the receiver is
left as it was, so `Handle` and `Enabled` through `h` afterwards behave as before. -/
theorem multiHandler_WithAttrs_clones (ops : HandlerOps H Ctx Err W) (h : multiHandler H)
    (attrs : List Attr) :
    (h.WithAttrs ops attrs).result.handlers.length = h.handlers.length ∧
    (∀ i : Nat, (h.WithAttrs ops attrs).result.handlers[i]? =
        (h.handlers[i]?).map (fun d => ops.WithAttrs d attrs)) ∧
    (h.WithAttrs ops attrs).receiver = h ∧
    (∀ ctx record w, (h.WithAttrs ops attrs).receiver.Handle ops ctx record w =
        h.Handle ops ctx record w) ∧
    (∀ ctx level, (h.WithAttrs ops attrs).receiver.Enabled ops ctx level =
        h.Enabled ops ctx level) := by
  have hrec : (h.WithAttrs ops attrs).receiver = h := by
    simp only [multiHandler.WithAttrs, withAttrsLoop_h]
  refine ⟨?_, ?_, hrec, ?_, ?_⟩
  · rw [WithAttrs_handlers, List.length_map]
  · intro i
    rw [WithAttrs_handlers, List.getElem?_map]
  · intro ctx record w
    rw [hrec]
  · intro ctx level
    rw [hrec]

/-- C6: `WithGroup` returns a multiHandler whose slice has the length of `h.handlers` and
whose i-th element is `h.handlers[i].WithGroup(name)` for every `i`; the receiver is
left as it was. -/
theorem multiHandler_WithGroup_clones (ops : HandlerOps H Ctx Err W) (h : multiHandler H)
    (name : String) :
    (h.WithGroup ops name).result.handlers.length = h.handlers.length ∧
    (∀ i : Nat, (h.WithGroup ops name).result.handlers[i]? =
        (h.handlers[i]?).map (fun d => ops.WithGroup d name)) ∧
    (h.WithGroup ops name).receiver = h ∧
    (∀ ctx record w, (h.WithGroup ops name).receiver.Handle ops ctx record w =
        h.Handle ops ctx record w) := by
  have hrec : (h.WithGroup ops name).receiver = h := by
    simp only [multiHandler.WithGroup, withGroupLoop_h]
  refine ⟨?_, ?_, hrec, ?_⟩
  · rw [WithGroup_handlers, List.length_map]
  · intro i
    rw [WithGroup_handlers, List.getElem?_map]
  · intro ctx record w
    rw [hrec]

end FanoutClaims

section FanoutExamples

/-- C2 as stated fails: with a first destination whose `Handle` fails and a second one
that is enabled for the record, `Handle` does not invoke every enabled destination: no
call to the second one is recorded, and the world after `Handle` holds no line at all,
while any call of the second destination writes its line. -/
theorem multiHandler_Handle_stops_at_failure :
    ¬ (∀ i (hi : i < [brokenFile, console].length),
        lineOps.Enabled ([brokenFile, console][i]) () sampleRecord.Level = true →
        ∃ c ∈ (multiHandler.Handle lineOps { handlers := [brokenFile, console] } ()
            sampleRecord []).calls, c.index = i) ∧
    lineOps.Enabled console () sampleRecord.Level = true ∧
    (multiHandler.Handle lineOps { handlers := [brokenFile, console] } () sampleRecord
        []).world = [] ∧
    (∀ v, ("stdout", sampleRecord) ∈ (lineOps.Handle console () sampleRecord v).1) := by
  refine ⟨?_, by decide, by decide, ?_⟩
  · intro hall
    have h1 := hall 1 (by decide) (by decide)
    revert h1
    decide
  · intro v
    simp [lineOps, console, sampleRecord]

/-- C2 as the code has it, on a run with a failure in the middle: of three enabled
destinations the first is called and writes its line, the second is called because the
call before it returned nil and fails, and the third is not called because a call
before it failed; the world holds the line of the first destination only. -/
theorem multiHandler_Handle_invokes_until_failure_example :
    ((∃ c ∈ (multiHandler.Handle lineOps { handlers := [console, brokenFile, syslog] } ()
          sampleRecord []).calls,
        c.index = 1 ∧ c.handler = brokenFile ∧ c.record = sampleRecord) ↔
      ∀ c ∈ (multiHandler.Handle lineOps { handlers := [console, brokenFile, syslog] } ()
          sampleRecord []).calls, c.index < 1 → c.result = none) ∧
    ((∃ c ∈ (multiHandler.Handle lineOps { handlers := [console, brokenFile, syslog] } ()
          sampleRecord []).calls,
        c.index = 2 ∧ c.handler = syslog ∧ c.record = sampleRecord) ↔
      ∀ c ∈ (multiHandler.Handle lineOps { handlers := [console, brokenFile, syslog] } ()
          sampleRecord []).calls, c.index < 2 → c.result = none) ∧
    (multiHandler.Handle lineOps { handlers := [console, brokenFile, syslog] } ()
        sampleRecord []).world =
      (multiHandler.Handle lineOps { handlers := [console, brokenFile, syslog] } ()
        sampleRecord []).calls.foldl
          (fun v c => (lineOps.Handle c.handler () c.record v).1) [] ∧
    (multiHandler.Handle lineOps { handlers := [console, brokenFile, syslog] } ()
        sampleRecord []).calls.map (fun c => (c.index, c.result)) =
      [(0, none), (1, some "disk full")] ∧
    (multiHandler.Handle lineOps { handlers := [console, brokenFile, syslog] } ()
        sampleRecord []).world = [("stdout", sampleRecord)] :=
  ⟨(multiHandler_Handle_invokes_until_failure lineOps
      { handlers := [console, brokenFile, syslog] } () sampleRecord []).2.1 1 brokenFile rfl
      (by decide),
    (multiHandler_Handle_invokes_until_failure lineOps
      { handlers := [console, brokenFile, syslog] } () sampleRecord []).2.1 2 syslog rfl
      (by decide),
    (multiHandler_Handle_invokes_until_failure lineOps
      { handlers := [console, brokenFile, syslog] } () sampleRecord []).2.2.2.2.1,
    by decide, by decide⟩

/-- The error of the failing first destination is what `Handle` returns, and the world is
left without any line of the second destination. -/
theorem multiHandler_Handle_broken_first :
    (multiHandler.Handle lineOps { handlers := [brokenFile, console] } () sampleRecord
        []).err = some "disk full" ∧
    (multiHandler.Handle lineOps { handlers := [brokenFile, console] } () sampleRecord
        []).world = [] := by
  decide

/-- The error of a destination that fails after another one succeeded is what `Handle`
returns, and a destination after it that would succeed does not change that. -/
theorem multiHandler_Handle_broken_second :
    (multiHandler.Handle lineOps { handlers := [console, brokenFile, syslog] } ()
        sampleRecord []).err = some "disk full" := by
  decide

end FanoutExamples

end VpsTemplate

namespace VpsTemplate

section HandlerClaims

theorem Getenv_cons_self (key v : String) (env : Environ) :
    Getenv ((key, v) :: env) key = v := by
  simp [Getenv, List.lookup]

theorem Getenv_nil (key : String) : Getenv [] key = "" := rfl

/-- The body `handleHealth` writes, for any image tag and timestamp: the operands are
copied between the quotes of the format as they are. -/
theorem handleHealth_body (tracer : Bool) (env : Environ) (now : String) (r : Request) :
    (handleHealth tracer env now r ResponseWriter.fresh).w.body =
      "\x7b\"status\":\"healthy\",\"version\":\"" ++ Getenv env "IMAGE_TAG" ++
        "\",\"time\":\"" ++ now ++ "\"\x7d" := by
  apply String.ext
  simp [handleHealth, ResponseWriter.Write, ResponseWriter.WriteHeader,
    ResponseWriter.SetHeader, ResponseWriter.fresh, healthFormat, Sprintf, mapIndex,
    List.lookup]

/-- C7 (the code at the failing input): with `IMAGE_TAG` set to a double quote,
`handleHealth` writes a body in which the quote is not escaped; the body is not a JSON
object with string members, so it is not the health payload of the specification. -/
theorem handleHealth_quote_in_tag_not_JSON :
    (handleHealth false [("IMAGE_TAG", "\"")] "2024-01-01T00:00:00Z" sampleRequest
        ResponseWriter.fresh).w.body =
      "\x7b\"status\":\"healthy\",\"version\":\"\"\",\"time\":\"2024-01-01T00:00:00Z\"\x7d" ∧
    decodeStringObject (handleHealth false [("IMAGE_TAG", "\"")] "2024-01-01T00:00:00Z"
        sampleRequest ResponseWriter.fresh).w.body = none ∧
    ¬ isHealthPayload (handleHealth false [("IMAGE_TAG", "\"")] "2024-01-01T00:00:00Z"
        sampleRequest ResponseWriter.fresh).w.body "\"" "2024-01-01T00:00:00Z" := by
  have hnone : decodeStringObject (handleHealth false [("IMAGE_TAG", "\"")]
      "2024-01-01T00:00:00Z" sampleRequest ResponseWriter.fresh).w.body = none := by rfl
  refine ⟨by decide, hnone, ?_⟩
  rintro ⟨kvs, hk, -⟩
  rw [hnone] at hk
  exact Option.noConfusion hk

/-- With an image tag made of plain characters the body of `handleHealth` is the health
payload. -/
theorem handleHealth_plain_tag_is_payload :
    isHealthPayload (handleHealth false [("IMAGE_TAG", "v1.2.3")] "2024-01-01T00:00:00Z"
        sampleRequest ResponseWriter.fresh).w.body "v1.2.3" "2024-01-01T00:00:00Z" := by
  refine ⟨[("status", "healthy"), ("version", "v1.2.3"), ("time", "2024-01-01T00:00:00Z")],
    by rfl, rfl, by simp, by simp, by simp⟩

/-- A string of plain characters followed by a quote is read back as it is. -/
theorem readString_plain (s rest : List Char) (hs : ∀ c ∈ s, plainChar c = true) :
    readString (s ++ '"' :: rest) = some (s, rest) := by
  induction s with
  | nil => simp [readString]
  | cons c s ih =>
    have hc := hs c (List.mem_cons_self _ _)
    have ih2 := ih (fun d hd => hs d (List.mem_cons_of_mem _ hd))
    simp only [plainChar, Bool.and_eq_true, bne_iff_ne, ne_eq, decide_eq_true_eq] at hc
    obtain ⟨⟨h1, h2⟩, h3⟩ := hc
    rw [List.cons_append]
    unfold readString
    split
    · contradiction
    · simp_all
    · simp_all
    · simp_all
    · simp_all
    · rename_i heq
      cases heq
      have h4 : ¬ c.toNat < 32 := by omega
      simp [h4, ih2]

theorem readMember_plain (k v rest : List Char) (hk : ∀ c ∈ k, plainChar c = true)
    (hv : ∀ c ∈ v, plainChar c = true) :
    readMember ('"' :: (k ++ '"' :: ':' :: '"' :: (v ++ '"' :: rest))) =
      some ((String.mk k, String.mk v), rest) := by
  simp [readMember, readString_plain _ _ hk, readString_plain _ _ hv, skipWs]

theorem readMembers_step (fuel : Nat) (k v rest : List Char)
    (hk : ∀ c ∈ k, plainChar c = true) (hv : ∀ c ∈ v, plainChar c = true) :
    readMembers (fuel + 1) (',' :: '"' :: (k ++ '"' :: ':' :: '"' :: (v ++ '"' :: rest))) =
      (readMembers fuel rest).map (fun kvs => (String.mk k, String.mk v) :: kvs) := by
  simp only [readMembers, skipWs, readMember_plain _ _ _ hk hv]
  cases readMembers fuel rest <;> rfl

theorem readMembers_close (fuel : Nat) : readMembers (fuel + 1) ['}'] = some [] := by
  simp [readMembers, skipWs]

theorem decodeStringObject_member (text : String) (m : List Char)
    (h : text.toList = '{' :: '"' :: m) :
    decodeStringObject text =
      match readMember ('"' :: m) with
      | some (kv, out) =>
        match readMembers (out.length + 1) out with
        | some kvs => some (kv :: kvs)
        | none => none
      | none => none := by
  unfold decodeStringObject
  rw [h]
  simp [skipWs]

/-- When the image tag and the timestamp are made of plain characters only, the body of
`handleHealth` is the health payload: it decodes to the three members status, version and
time, in this order. -/
theorem handleHealth_plain_is_payload (tracer : Bool) (env : Environ) (now : String)
    (r : Request)
    (htag : ∀ c ∈ (Getenv env "IMAGE_TAG").toList, plainChar c = true)
    (hnow : ∀ c ∈ now.toList, plainChar c = true) :
    decodeStringObject (handleHealth tracer env now r ResponseWriter.fresh).w.body =
      some [("status", "healthy"), ("version", Getenv env "IMAGE_TAG"), ("time", now)] ∧
    isHealthPayload (handleHealth tracer env now r ResponseWriter.fresh).w.body
      (Getenv env "IMAGE_TAG") now := by
  have hlist : (handleHealth tracer env now r ResponseWriter.fresh).w.body.toList =
      '{' :: '"' :: ("status".toList ++ '"' :: ':' :: '"' :: ("healthy".toList ++ '"' ::
        ',' :: '"' :: ("version".toList ++ '"' :: ':' :: '"' ::
          ((Getenv env "IMAGE_TAG").toList ++ '"' ::
        ',' :: '"' :: ("time".toList ++ '"' :: ':' :: '"' :: (now.toList ++ '"' ::
          ['}'])))))) := by
    rw [handleHealth_body]
    simp [String.toList]
  have hdec : decodeStringObject (handleHealth tracer env now r ResponseWriter.fresh).w.body =
      some [("status", "healthy"), ("version", Getenv env "IMAGE_TAG"), ("time", now)] := by
    rw [decodeStringObject_member _ _ hlist,
      readMember_plain "status".toList "healthy".toList _ (by decide) (by decide)]
    simp only [List.length_cons, List.length_append]
    rw [readMembers_step _ "version".toList _ _ (by decide) htag,
      readMembers_step _ "time".toList _ _ (by decide) hnow, readMembers_close]
    rfl
  exact ⟨hdec, _, hdec, rfl, by simp, by simp, by simp⟩

/-- C8: on a fresh response writer `handleRoot` sets the header Content-Type to text/html,
writes status 200 (with that header) and writes the body made of the fixed text up to
`Version: `, the value of `IMAGE_TAG` (the empty string when unset) and the fixed rest;
the response is the same for every request. -/
theorem handleRoot_response (tracer : Bool) (env : Environ) (r : Request) :
    (handleRoot tracer env r ResponseWriter.fresh).w.header = [("Content-Type", "text/html")] ∧
    (handleRoot tracer env r ResponseWriter.fresh).w.sentHeader =
      [("Content-Type", "text/html")] ∧
    (handleRoot tracer env r ResponseWriter.fresh).w.status = some 200 ∧
    (handleRoot tracer env r ResponseWriter.fresh).w.body =
      htmlHead ++ Getenv env "IMAGE_TAG" ++ htmlTail ∧
    (∃ lead, htmlHead = lead ++ "Version: ") ∧
    (∀ v, (handleRoot tracer (("IMAGE_TAG", v) :: env) r ResponseWriter.fresh).w.body =
      htmlHead ++ v ++ htmlTail) ∧
    (handleRoot tracer [] r ResponseWriter.fresh).w.body = htmlHead ++ "" ++ htmlTail ∧
    (∀ r2 tracer2, (handleRoot tracer2 env r2 ResponseWriter.fresh).w =
      (handleRoot tracer env r ResponseWriter.fresh).w) := by
  have hbody : ∀ (t : Bool) (e : Environ) (q : Request),
      (handleRoot t e q ResponseWriter.fresh).w.body =
        htmlHead ++ Getenv e "IMAGE_TAG" ++ htmlTail := by
    intro t e q
    simp [handleRoot, ResponseWriter.Write, ResponseWriter.WriteHeader,
      ResponseWriter.SetHeader, ResponseWriter.fresh, StatusOK]
  refine ⟨rfl, rfl, rfl, hbody tracer env r, ⟨_, rfl⟩, ?_, hbody tracer [] r, ?_⟩
  · intro v
    rw [hbody, Getenv_cons_self]
  · intro r2 tracer2
    rfl

end HandlerClaims

section LifecycleClaims

/-- C9: the exit code is 1 when `initLogger` returns an error, when `initTracing` returns
an error, and when `ListenAndServe` returns an error other than `http.ErrServerClosed`;
it is 0, after a last log call "Server exited", when the start succeeded, a termination
signal is received and `Shutdown` returns, whatever `Shutdown` returns. -/
theorem main_exit_code (env : Environ) (o : Outcomes) :
    (initLogger env o ≠ none → (main env o).exitCode = some 1) ∧
    (initLogger env o = none → (initTracing env o).1 ≠ none →
      (main env o).exitCode = some 1) ∧
    (initLogger env o = none → (initTracing env o).1 = none →
      ∀ err, o.listenAndServe = .returns (some err) → err ≠ GoError.ErrServerClosed →
        (main env o).exitCode = some 1) ∧
    (initLogger env o = none → (initTracing env o).1 = none →
      serveFailed o.listenAndServe.result = false → o.signal = true →
      ∀ sd, (main env { o with shutdown := sd }).exitCode = some 0 ∧
        ∃ pre, (main env { o with shutdown := sd }).logs =
          pre ++ [{ level := LevelInfo, msg := "Server exited", args := [] }]) := by
  refine ⟨?_, ?_, ?_, ?_⟩
  · intro h
    unfold main
    cases hl : initLogger env o with
    | none => exact absurd hl h
    | some err => rfl
  · intro hl ht
    unfold main
    rw [hl]
    rcases htr : initTracing env o with ⟨_ | err, tlogs⟩
    · rw [htr] at ht
      exact absurd rfl ht
    · rfl
  · intro hl ht err hserve hne
    unfold main
    rw [hl]
    rcases htr : initTracing env o with ⟨_ | terr, tlogs⟩
    · have hf : serveFailed o.listenAndServe.result = true := by
        simp [serveFailed, hserve, ServeOutcome.result, hne]
      simp only [hf, if_true]
    · rfl
  · intro hl ht hf hsig sd
    have hl2 : initLogger env { o with shutdown := sd } = none := hl
    have ht2 : initTracing env { o with shutdown := sd } = initTracing env o := rfl
    unfold main
    rw [hl2, ht2]
    rcases htr : initTracing env o with ⟨_ | terr, tlogs⟩
    · simp only [hf, hsig, if_true, Bool.false_eq_true, if_false, true_and]
      exact ⟨_, rfl⟩
    · rw [htr] at ht
      exact absurd ht (by simp)

/-- The only call `initTracing` makes to `logger` is the warning that the endpoint is
not set. -/
theorem initTracing_logs (env : Environ) (o : Outcomes) :
    ∀ c ∈ (initTracing env o).2, c.msg = "OTEL_ENDPOINT not set, skipping tracing setup" := by
  intro c hc
  unfold initTracing at hc
  split at hc
  · simp only [List.mem_singleton] at hc
    rw [hc]
  · split at hc <;> simp at hc

/-- C10 as stated fails: when the shutdown times out, the record `main` logs for it has
level Error; no record for it has level Warn. -/
theorem main_shutdown_timeout_not_logged_as_warning :
    (∃ c ∈ (main [] timedOutRun).logs,
      c.msg = "Server forced to shutdown" ∧ c.level = LevelError) ∧
    ¬ (∃ c ∈ (main [] timedOutRun).logs,
      c.msg = "Server forced to shutdown" ∧ c.level = LevelWarn) := by
  decide

/-- C10, as the code has it: when the start succeeded, a termination signal is received
and `Shutdown` returns an error, `main` logs "Server shutting down", then the record
"Server forced to shutdown" with level Error and the error as argument, then "Server
exited", and the process ends with exit code 0; every record with the message "Server
forced to shutdown" has level Error. -/
theorem main_shutdown_failure_logged_as_error (env : Environ) (o : Outcomes) (err : GoError)
    (hl : initLogger env o = none) (ht : (initTracing env o).1 = none)
    (hf : serveFailed o.listenAndServe.result = false) (hsig : o.signal = true)
    (hsd : o.shutdown = some err) :
    (main env o).exitCode = some 0 ∧
    (∃ pre, (main env o).logs = pre ++
      [{ level := LevelInfo, msg := "Server shutting down", args := [] },
       { level := LevelError, msg := "Server forced to shutdown",
         args := [⟨"error", err.Error⟩] },
       { level := LevelInfo, msg := "Server exited", args := [] }]) ∧
    (∀ c ∈ (main env o).logs, c.msg = "Server forced to shutdown" → c.level = LevelError) := by
  have hmain : main env o =
      { exitCode := some 0, stdout := [],
        logs := ([{ level := LevelInfo, msg := "Starting Go application",
                    args := [⟨"version", Getenv env "IMAGE_TAG"⟩] }] ++
                  (initTracing env o).2 ++
                  [{ level := LevelInfo, msg := "Server starting",
                     args := [⟨"port", "3000"⟩] }]) ++
          [{ level := LevelInfo, msg := "Server shutting down", args := [] },
           { level := LevelError, msg := "Server forced to shutdown",
             args := [⟨"error", err.Error⟩] },
           { level := LevelInfo, msg := "Server exited", args := [] }] } := by
    unfold main
    rw [hl]
    rcases htr : initTracing env o with ⟨_ | terr, tlogs⟩
    · simp only [hf, hsig, hsd, if_true, Bool.false_eq_true, if_false, List.append_assoc,
        List.singleton_append, List.cons_append, List.nil_append]
    · rw [htr] at ht
      exact absurd ht (by simp)
  refine ⟨by rw [hmain], ⟨_, by rw [hmain]⟩, ?_⟩
  intro c hc hmsg
  rw [hmain] at hc
  simp only [List.mem_append, List.mem_cons, List.mem_singleton, List.not_mem_nil,
    or_false] at hc
  rcases hc with ((hc | hc) | hc) | hc | hc | hc
  · rw [hc] at hmsg; exact absurd hmsg (by simp)
  · have := initTracing_logs env o c hc
    rw [this] at hmsg; exact absurd hmsg (by decide)
  · rw [hc] at hmsg; exact absurd hmsg (by decide)
  · rw [hc] at hmsg; exact absurd hmsg (by decide)
  · rw [hc]
  · rw [hc] at hmsg; exact absurd hmsg (by decide)

/-- C10, as the code has it, on the run whose shutdown times out. -/
theorem main_shutdown_failure_logged_as_error_example :
    (main [] timedOutRun).exitCode = some 0 ∧
    (∃ pre, (main [] timedOutRun).logs = pre ++
      [{ level := LevelInfo, msg := "Server shutting down", args := [] },
       { level := LevelError, msg := "Server forced to shutdown",
         args := [⟨"error", DeadlineExceeded.Error⟩] },
       { level := LevelInfo, msg := "Server exited", args := [] }]) ∧
    (∀ c ∈ (main [] timedOutRun).logs,
      c.msg = "Server forced to shutdown" → c.level = LevelError) :=
  main_shutdown_failure_logged_as_error [] timedOutRun DeadlineExceeded rfl rfl rfl rfl rfl

/-- When the port is already in use the process ends with exit code 1 and never logs
"Server shutting down". -/
theorem main_bind_failure_exits_1 :
    (main [] bindFailureRun).exitCode = some 1 ∧
    ¬ (∃ c ∈ (main [] bindFailureRun).logs, c.msg = "Server shutting down") := by
  decide

end LifecycleClaims

end VpsTemplate
